import Mathlib

/-!
# Verification of the kafkajs cluster-coordination core

Shallow embedding of the `Cluster` class (`src/cluster/index.js`) and the
`SubscriptionState` class against the natural-language
specification.

Modelling conventions:
* JavaScript plain objects used as dictionaries are association lists
  `List (K × V)`.  For string keys the JS enumeration order is insertion
  order, so updating an existing key keeps its position and a new key is
  appended (`objSetStr`).  For integer-like keys (broker `nodeId`s,
  partition leaders) JS enumerates keys in ascending numeric order, so the
  update keeps the list sorted (`objSetInt`).
* A JS `Set` is a duplicate-free list in insertion order: `add` appends when
  absent, `delete` filters, `clear` empties.
* `null`/`undefined` fields are `Option`.
* Thrown errors are `Except ClusterError`; a JS `forEach` body that throws
  stops the loop but keeps the mutations of the earlier iterations, which the
  embedding reproduces where it is observable (`SubscriptionState.resume`).
* Network collaborators (the opaque `Broker` objects) are parameters: a pure
  oracle function stands for the `await broker.…` call.
-/

set_option autoImplicit false

namespace KafkaJs

/-- Lookup in a JS-object association list: the value stored at key `k`
(`obj[k]`, `undefined` being `none`). -/
def objGet {K V : Type} [DecidableEq K] (k : K) : List (K × V) → Option V
  | [] => none
  | (k', v) :: rest => if k' = k then some v else objGet k rest

/-- Assignment `obj[k] = v` on a string-keyed JS object: an existing key keeps
its position, a new key is appended (JS insertion order for string keys). -/
def objSetStr {V : Type} (k : String) (v : V) : List (String × V) → List (String × V)
  | [] => [(k, v)]
  | (k', v') :: rest =>
    if k' = k then (k, v) :: rest else (k', v') :: objSetStr k v rest

/-- Assignment `obj[k] = v` on an integer-keyed JS object: JS enumerates
integer-like keys in ascending order, so the representation stays sorted. -/
def objSetInt {V : Type} (k : Int) (v : V) : List (Int × V) → List (Int × V)
  | [] => [(k, v)]
  | (k', v') :: rest =>
    if k' = k then (k, v) :: rest
    else if k < k' then (k, v) :: (k', v') :: rest
    else (k', v') :: objSetInt k v rest

/-- JS `Set.prototype.add`: append the element when it is not already present. -/
def setAdd {α : Type} [DecidableEq α] (x : α) (s : List α) : List α :=
  if x ∈ s then s else s ++ [x]

/-- JS `Set.prototype.delete`: remove the element. -/
def setDelete {α : Type} [DecidableEq α] (x : α) (s : List α) : List α :=
  s.filter (fun y => y ≠ x)

/-- Modelled from the spec: the error taxonomy of §7 (the `../errors` module is
not part of the sources).  Only the kinds the embedded code raises appear. -/
inductive ClusterError where
  /-- Kind `KafkaJSMetadataNotLoaded`. -/
  | metadataNotLoaded
  /-- Kind `KafkaJSTopicMetadataNotLoaded` (carries the topic). -/
  | topicMetadataNotLoaded (topic : String)
  /-- Kind `KafkaJSBrokerNotFound` (carries the nodeId it looked for). -/
  | brokerNotFound (nodeId : Int)
  /-- Kind `KafkaJSError` with message Invalid partition metadata. -/
  | invalidPartitionMetadata (topic : String) (partitionId : Int)
  /-- Kind `KafkaJSNonRetriableError`. -/
  | nonRetriable (message : String)
  deriving Repr, DecidableEq

/-! ## SubscriptionState -/

/-- One entry of `this.pausedPartitionsByTopic`:
`{ topic, partitions: Set, all: Bool }`.  `resume` on an unknown topic builds
`{ topic, partitions: new Set() }` whose missing `all` field (`undefined`,
falsy) is modelled as `false`. -/
structure PausedForTopic where
  topic : String
  partitions : List Int
  all : Bool
  deriving Repr, DecidableEq

/-- The `SubscriptionState` instance state: `pausedPartitionsByTopic`,
a string-keyed JS object. -/
structure SubscriptionState where
  pausedPartitionsByTopic : List (String × PausedForTopic)
  deriving Repr, DecidableEq

/-- A `{ topic, partitions? }` argument entry; `partitions === undefined` is
`none`. -/
structure TopicPartitions where
  topic : String
  partitions : Option (List Int)
  deriving Repr, DecidableEq

/-- The message of the `KafkaJSNonRetriableError` thrown by `resume`. -/
def resumeAllErrorMessage : String :=
  "Can not resume specific partitions of topic when entire topic was paused before"

namespace SubscriptionState

/-- The `new SubscriptionState()` state. -/
def empty : SubscriptionState := ⟨[]⟩

/-- One iteration of the `forEach` body of `pause`. -/
def pauseOne (st : SubscriptionState) (tp : TopicPartitions) : SubscriptionState :=
  let pausedForTopic :=
    (objGet tp.topic st.pausedPartitionsByTopic).getD
      { topic := tp.topic, partitions := [], all := false }
  let pausedForTopic :=
    match tp.partitions with
    | none => { pausedForTopic with partitions := [], all := true }
    | some ps =>
      { pausedForTopic with
          partitions := ps.foldl (fun s p => setAdd p s) pausedForTopic.partitions
          all := false }
  ⟨objSetStr tp.topic pausedForTopic st.pausedPartitionsByTopic⟩

/-- Method `pause(topicPartitions)`. -/
def pause (st : SubscriptionState) (topicPartitions : List TopicPartitions) :
    SubscriptionState :=
  topicPartitions.foldl pauseOne st

/-- One iteration of the `forEach` body of `resume`; throws
`KafkaJSNonRetriableError` when asked to resume specific partitions of a topic
paused with `all = true`. -/
def resumeOne (st : SubscriptionState) (tp : TopicPartitions) :
    Except ClusterError SubscriptionState :=
  let pausedForTopic :=
    (objGet tp.topic st.pausedPartitionsByTopic).getD
      { topic := tp.topic, partitions := [], all := false }
  match tp.partitions with
  | none =>
    .ok ⟨objSetStr tp.topic { pausedForTopic with partitions := [], all := false }
      st.pausedPartitionsByTopic⟩
  | some ps =>
    if pausedForTopic.all then
      .error (.nonRetriable resumeAllErrorMessage)
    else
      .ok ⟨objSetStr tp.topic
        { pausedForTopic with partitions := ps.foldl (fun s p => setDelete p s) pausedForTopic.partitions }
        st.pausedPartitionsByTopic⟩

/-- Method `resume(topicPartitions)`.  The thrown error escapes the `forEach`, so the
mutations made by the earlier iterations survive: the result is the state
reached so far paired with the error, if any. -/
def resume (st : SubscriptionState) :
    List TopicPartitions → SubscriptionState × Option ClusterError
  | [] => (st, none)
  | tp :: rest =>
    match resumeOne st tp with
    | .ok st' => resume st' rest
    | .error e => (st, some e)

/-- Method `paused()`: `Object.values` projected to `{ topic, partitions: [...], all }`. -/
def paused (st : SubscriptionState) : List PausedForTopic :=
  st.pausedPartitionsByTopic.map (fun kv =>
    { topic := kv.2.topic, partitions := kv.2.partitions, all := kv.2.all })

/-- Method `isPaused(topic, partition)`. -/
def isPaused (st : SubscriptionState) (topic : String) (partition : Int) : Bool :=
  match objGet topic st.pausedPartitionsByTopic with
  | none => false
  | some p => p.all || p.partitions.contains partition

end SubscriptionState

/-! ## Cluster metadata model -/

/-- One element of `topicMetadata[i].partitionMetadata`
(`{ partitionId, leader, replicas, isr, partitionErrorCode }`); a
`null`/`undefined` leader is `none`. -/
structure PartitionMetadata where
  partitionId : Int
  leader : Option Int
  replicas : List Int
  isr : List Int
  partitionErrorCode : Int
  deriving Repr, DecidableEq

/-- One element of `metadata.topicMetadata`. -/
structure TopicMetadata where
  topic : String
  topicErrorCode : Int
  partitionMetadata : List PartitionMetadata
  deriving Repr, DecidableEq

/-- The broker-pool metadata snapshot (`this.brokerPool.metadata`); fields the
embedded operations read.  `controllerId == null` is `none`; an absent
`topicMetadata` field is `none`. -/
structure MetadataSnapshot where
  controllerId : Option Int
  topicMetadata : Option (List TopicMetadata)
  deriving Repr, DecidableEq

/-- The `Cluster` instance state read by the embedded operations:
`targetTopics` (a JS `Set` of strings), `isolationLevel`, and the broker
pool current snapshot (`none` when no metadata is loaded). -/
structure ClusterState where
  targetTopics : List String
  isolationLevel : Int
  metadata : Option MetadataSnapshot
  deriving Repr, DecidableEq

namespace Cluster

/-- Method `findTopicPartitionMetadata(topic)`: the partition metadata list for the
topic, `[]` when the snapshot has no entry for it, and
`KafkaJSTopicMetadataNotLoaded` when the snapshot or its `topicMetadata` is
absent. -/
def findTopicPartitionMetadata (cluster : ClusterState) (topic : String) :
    Except ClusterError (List PartitionMetadata) :=
  match cluster.metadata with
  | none => .error (.topicMetadataNotLoaded topic)
  | some metadata =>
    match metadata.topicMetadata with
    | none => .error (.topicMetadataNotLoaded topic)
    | some topicMetadata =>
      match topicMetadata.find? (fun t => t.topic = topic) with
      | some tm => .ok tm.partitionMetadata
      | none => .ok []

/-- The `reduce` body of `findLeaderForPartitions`: look the partition id up
in the partition metadata of the topic, skip it when absent, throw when its leader
is `null`/`undefined`, otherwise append it to `result[leader]`.  The ids are
already integers, so `parseInt(id, 10)` is the identity. -/
def addLeaderForPartition (topic : String) (partitionMetadata : List PartitionMetadata)
    (result : List (Int × List Int)) (partitionId : Int) :
    Except ClusterError (List (Int × List Int)) :=
  match partitionMetadata.find? (fun p => p.partitionId = partitionId) with
  | none => .ok result
  | some metadata =>
    match metadata.leader with
    | none => .error (.invalidPartitionMetadata topic partitionId)
    | some leader =>
      .ok (objSetInt leader ((objGet leader result).getD [] ++ [partitionId]) result)

/-- Method `findLeaderForPartitions(topic, partitions)`: the requested partition ids
grouped by leader `nodeId`. -/
def findLeaderForPartitions (cluster : ClusterState) (topic : String)
    (partitions : List Int) : Except ClusterError (List (Int × List Int)) := do
  let partitionMetadata ← findTopicPartitionMetadata cluster topic
  partitions.foldlM (addLeaderForPartition topic partitionMetadata) []

/-- Method `findControllerBroker()`: here `B` is the opaque broker type and `findBroker`
stands for `this.findBroker({ nodeId })`, which either produces a value (a
falsy one is mapped to `none`) or throws.  The method first requires a
snapshot with a non-null `controllerId`. -/
def findControllerBroker {B : Type} (findBroker : Int → Except ClusterError (Option B))
    (cluster : ClusterState) : Except ClusterError B :=
  match cluster.metadata with
  | none => .error .metadataNotLoaded
  | some metadata =>
    match metadata.controllerId with
    | none => .error .metadataNotLoaded
    | some controllerId => do
      let broker ← findBroker controllerId
      match broker with
      | none => .error (.brokerNotFound controllerId)
      | some b => .ok b

/-- Method `addMultipleTargetTopics(topics)`: union into `targetTopics` and refresh
the metadata when the set grew or no snapshot is loaded.  The refresh itself
is a network call; the returned flag records whether `refreshMetadata()` was
awaited (it is called at most once per invocation). -/
def addMultipleTargetTopics (cluster : ClusterState) (topics : List String) :
    ClusterState × Bool :=
  let previousSize := cluster.targetTopics.length
  let newTargets := topics.foldl (fun s t => setAdd t s) cluster.targetTopics
  let hasChanged := previousSize ≠ newTargets.length ∨ cluster.metadata = none
  ({ cluster with targetTopics := newTargets }, decide hasChanged)

/-- Method `addTargetTopic(topic)`. -/
def addTargetTopic (cluster : ClusterState) (topic : String) : ClusterState × Bool :=
  addMultipleTargetTopics cluster [topic]

/-- Modelled from the spec: the offset sentinels of §6 (the `../constants`
module is not part of the sources): `EARLIEST = -2`. -/
def EARLIEST_OFFSET : Int := -2

/-- Modelled from the spec: the offset sentinels of §6: `LATEST = -1`. -/
def LATEST_OFFSET : Int := -1

/-- Method `defaultOffset` on a topic configuration. -/
def defaultOffset (fromBeginning : Bool) : Int :=
  if fromBeginning then EARLIEST_OFFSET else LATEST_OFFSET

end Cluster

/-! ### fetchTopicsOffset -/

/-- An input partition descriptor `{ partition }` of `fetchTopicsOffset`. -/
structure InputPartition where
  partition : Int
  deriving Repr, DecidableEq

/-- One input entry `{ topic, partitions, fromBeginning }` of
`fetchTopicsOffset`. -/
structure TopicOffsetQuery where
  topic : String
  partitions : List InputPartition
  fromBeginning : Bool
  deriving Repr, DecidableEq

/-- A partition descriptor of a `listOffsets` request, after
`addDefaultOffset` spread the input descriptor and added `timestamp`. -/
structure RequestPartition where
  partition : Int
  timestamp : Int
  deriving Repr, DecidableEq

/-- One topic block of a `listOffsets` request. -/
structure RequestTopic where
  topic : String
  partitions : List RequestPartition
  deriving Repr, DecidableEq

/-- The argument of `broker.listOffsets({ isolationLevel, topics })`. -/
structure ListOffsetsRequest where
  isolationLevel : Int
  topics : List RequestTopic
  deriving Repr, DecidableEq

/-- A partition of a `listOffsets` response:
`{ partition, offset, errorCode }` (§6).  The offset is carried as a decimal
string and may be absent. -/
structure ResponsePartition where
  partition : Int
  offset : Option String
  errorCode : Int
  deriving Repr, DecidableEq

/-- One topic block of a `listOffsets` response (`responses[i]`). -/
structure ResponseTopic where
  topic : String
  partitions : List ResponsePartition
  deriving Repr, DecidableEq

/-- An output partition `{ partition, offset }` of `fetchTopicsOffset`. -/
structure OutputPartition where
  partition : Int
  offset : Option String
  deriving Repr, DecidableEq

/-- One output entry `{ topic, partitions }` of `fetchTopicsOffset`. -/
structure TopicOffsetResult where
  topic : String
  partitions : List OutputPartition
  deriving Repr, DecidableEq

/-- Function `mergeTopics`: the JS update is obj[topic] = previous concat partitions. -/
def mergeTopics (obj : List (String × List ResponsePartition)) (r : ResponseTopic) :
    List (String × List ResponsePartition) :=
  objSetStr r.topic ((objGet r.topic obj).getD [] ++ r.partitions) obj

namespace Cluster

/-- The per-broker index built by the first loop of `fetchTopicsOffset`:
`partitionsPerBroker : nodeId → topic → [input partition descriptors]` plus
`topicConfigurations : topic → fromBeginning`. -/
structure OffsetIndex where
  partitionsPerBroker : List (Int × List (String × List InputPartition))
  topicConfigurations : List (String × Bool)
  deriving Repr, DecidableEq

/-- The body of `keys(partitionsPerLeader).map(nodeId => …)`: file the
partitions of the current entry that this leader owns under
`partitionsPerBroker[nodeId][topic]`. -/
def fileLeader (topicData : TopicOffsetQuery) (partitionsPerLeader : List (Int × List Int))
    (ppb : List (Int × List (String × List InputPartition))) (nodeId : Int) :
    List (Int × List (String × List InputPartition)) :=
  let forNode := (objGet nodeId ppb).getD []
  let filtered := topicData.partitions.filter (fun p =>
    ((objGet nodeId partitionsPerLeader).getD []).contains p.partition)
  objSetInt nodeId (objSetStr topicData.topic filtered forNode) ppb

/-- One iteration of the indexing loop of `fetchTopicsOffset`: group the
partitions of the entry by leader, record `fromBeginning`, and file the
partitions of each leader under `partitionsPerBroker[nodeId][topic]`. -/
def indexTopicQuery (cluster : ClusterState) (acc : OffsetIndex)
    (topicData : TopicOffsetQuery) : Except ClusterError OffsetIndex := do
  let partitionsPerLeader ← findLeaderForPartitions cluster topicData.topic
    (topicData.partitions.map (fun p => p.partition))
  let topicConfigurations :=
    objSetStr topicData.topic topicData.fromBeginning acc.topicConfigurations
  let partitionsPerBroker :=
    (partitionsPerLeader.map (fun kv => kv.1)).foldl
      (fileLeader topicData partitionsPerLeader) acc.partitionsPerBroker
  .ok ⟨partitionsPerBroker, topicConfigurations⟩

/-- The index after the first loop of `fetchTopicsOffset`. -/
def buildOffsetIndex (cluster : ClusterState) (topics : List TopicOffsetQuery) :
    Except ClusterError OffsetIndex :=
  topics.foldlM (indexTopicQuery cluster) ⟨[], []⟩

/-- Function `addDefaultOffset(topic)(partition)`: spread the input descriptor and set
`timestamp` from the recorded `fromBeginning` of the topic.  Inside
`fetchTopicsOffset` the topic is always a key of `topicConfigurations`; the
`getD false` default is unreachable there. -/
def addDefaultOffset (topicConfigurations : List (String × Bool)) (topic : String)
    (p : InputPartition) : RequestPartition :=
  { partition := p.partition
    timestamp := defaultOffset ((objGet topic topicConfigurations).getD false) }

/-- The `listOffsets` request `fetchTopicsOffset` sends to one leader. -/
def requestForBroker (cluster : ClusterState) (topicConfigurations : List (String × Bool))
    (partitions : List (String × List InputPartition)) : ListOffsetsRequest :=
  { isolationLevel := cluster.isolationLevel
    topics := partitions.map (fun kv =>
      { topic := kv.1
        partitions := kv.2.map (addDefaultOffset topicConfigurations kv.1) }) }

/-- The list of `(nodeId, listOffsets request)` pairs `fetchTopicsOffset`
issues, one per leader, in the order `keys(partitionsPerBroker)` yields. -/
def buildOffsetRequests (cluster : ClusterState) (topics : List TopicOffsetQuery) :
    Except ClusterError (List (Int × ListOffsetsRequest)) := do
  let index ← buildOffsetIndex cluster topics
  .ok (index.partitionsPerBroker.map (fun kv =>
    (kv.1, requestForBroker cluster index.topicConfigurations kv.2)))

/-- Method `fetchTopicsOffset(topics)`.  Here `listOffsets nodeId request` stands for
`findBroker({ nodeId })` followed by `broker.listOffsets(request)`, returning
the `responses` array of the broker; `Promise.all` keeps the request order.  The
merged responses are regrouped by topic and projected to
`{ partition, offset }`. -/
def fetchTopicsOffset (cluster : ClusterState)
    (listOffsets : Int → ListOffsetsRequest → List ResponseTopic)
    (topics : List TopicOffsetQuery) : Except ClusterError (List TopicOffsetResult) := do
  let requests ← buildOffsetRequests cluster topics
  let responses := requests.map (fun kv => listOffsets kv.1 kv.2)
  let partitionsPerTopic := responses.flatten.foldl mergeTopics []
  .ok (partitionsPerTopic.map (fun kv =>
    { topic := kv.1
      partitions := kv.2.map (fun p => { partition := p.partition, offset := p.offset }) }))

end Cluster

/-! ## Derived notions used by the verified statements -/

/-- The invariant of §3: whenever the `all` flag of a paused entry is true its
partition set is empty. -/
def PausedInvariant (st : SubscriptionState) : Prop :=
  ∀ kv ∈ st.pausedPartitionsByTopic, kv.2.all = true → kv.2.partitions = []

/-- A `SubscriptionState` operation (the state-changing API surface;
`paused()` and `isPaused()` are pure queries and leave the state alone). -/
inductive SubscriptionOp where
  | pause (topicPartitions : List TopicPartitions)
  | resume (topicPartitions : List TopicPartitions)
  deriving Repr, DecidableEq

/-- Run one operation, keeping whatever state a thrown `resume` left behind. -/
def applyOp (st : SubscriptionState) : SubscriptionOp → SubscriptionState
  | .pause l => st.pause l
  | .resume l => (st.resume l).1

/-- Run a sequence of operations. -/
def applyOps (st : SubscriptionState) (ops : List SubscriptionOp) : SubscriptionState :=
  ops.foldl applyOp st

/-- The leader the snapshot names for a partition id: the `leader` field of
the first metadata entry with that `partitionId`, when both exist. -/
def leaderOf (pm : List PartitionMetadata) (id : Int) : Option Int :=
  (pm.find? (fun p => p.partitionId = id)).bind (fun m => m.leader)

/-- The requested partition ids whose metadata names `leader` as leader, in
request order. -/
def leadersFilter (pm : List PartitionMetadata) (partitions : List Int) (leader : Int) :
    List Int :=
  partitions.filter (fun id => leaderOf pm id = some leader)

/-- Combine a previous `result[leader]` value with newly grouped ids: the key
exists afterwards iff it existed before or an id was grouped under it. -/
def groupVal (prev : Option (List Int)) (f : List Int) : Option (List Int) :=
  match prev, f with
  | none, [] => none
  | prev, f => some (prev.getD [] ++ f)

/-- All response partitions the merged `listOffsets` responses carry for a
topic, in merge order. -/
def responsePartitionsFor (t : String) (rs : List ResponseTopic) : List ResponsePartition :=
  (((rs.filter (fun r => r.topic = t)).map (fun r => r.partitions))).flatten

/-- The final regrouping step of `fetchTopicsOffset`: merge the flattened
responses by topic and project each partition to `{partition, offset}`. -/
def regroupOffsets (merged : List ResponseTopic) : List TopicOffsetResult :=
  (merged.foldl mergeTopics []).map (fun kv =>
    { topic := kv.1, partitions := kv.2.map (fun p => ⟨p.partition, p.offset⟩) })

/-- Forget the `errorCode` of a response partition. -/
def scrubPartition (p : ResponsePartition) : ResponsePartition :=
  { p with errorCode := 0 }

/-- Forget every `errorCode` of a response topic block. -/
def scrubTopic (r : ResponseTopic) : ResponseTopic :=
  { r with partitions := r.partitions.map scrubPartition }

/-- Forget every `errorCode` of a `listOffsets` response. -/
def scrubResponses (rs : List ResponseTopic) : List ResponseTopic :=
  rs.map scrubTopic

/-- Forget every `errorCode` in a merged per-topic accumulator. -/
def scrubObj (o : List (String × List ResponsePartition)) :
    List (String × List ResponsePartition) :=
  o.map (fun kv => (kv.1, kv.2.map scrubPartition))

/-! ## Concrete scenario data (spec §8) -/

/-- Partition metadata with a given id and leader and unremarkable remaining
fields. -/
def exPartition (id : Int) (leader : Option Int) : PartitionMetadata :=
  ⟨id, leader, [leader.getD 0], [leader.getD 0], 0⟩

/-- The S1 snapshot: topic `t` with partitions `{0→leader 1, 1→leader 2,
2→leader 1}` and controller 1. -/
def exSnapshot : MetadataSnapshot :=
  ⟨some 1, some [⟨"t", 0, [exPartition 0 (some 1), exPartition 1 (some 2), exPartition 2 (some 1)]⟩]⟩

/-- A cluster holding the S1 snapshot, with `isolationLevel = 1`
(READ_COMMITTED). -/
def exCluster : ClusterState := ⟨[], 1, some exSnapshot⟩

/-- A snapshot in which partition 1 of topic `t` has a `null` leader. -/
def exSnapshotNullLeader : MetadataSnapshot :=
  ⟨some 1, some [⟨"t", 0, [exPartition 0 (some 1), exPartition 1 none]⟩]⟩

/-- A cluster holding the null-leader snapshot. -/
def exClusterNullLeader : ClusterState := ⟨[], 0, some exSnapshotNullLeader⟩

/-- A broker oracle answering every `listOffsets` request with offset "42"
per requested partition and `errorCode = 0`. -/
def exOracleOk : Int → ListOffsetsRequest → List ResponseTopic := fun _ req =>
  req.topics.map (fun t =>
    ⟨t.topic, t.partitions.map (fun p => ⟨p.partition, some "42", 0⟩)⟩)

/-- The same broker oracle except that every partition carries the non-zero
`errorCode = 7`. -/
def exOracleErr : Int → ListOffsetsRequest → List ResponseTopic := fun _ req =>
  req.topics.map (fun t =>
    ⟨t.topic, t.partitions.map (fun p => ⟨p.partition, some "42", 7⟩)⟩)

/-- A broker resolver for `findControllerBroker` whose brokers are bare node
ids. -/
def exFindBroker : Int → Except ClusterError (Option Int) := fun nodeId =>
  .ok (some nodeId)

/-! ## Helper lemmas about the JS object / JS Set embedding -/

theorem objGet_objSetStr_self {V : Type} (k : String) (v : V) (o : List (String × V)) :
    objGet k (objSetStr k v o) = some v := by
  induction o with
  | nil => simp [objSetStr, objGet]
  | cons kv rest ih =>
    obtain ⟨k₀, v₀⟩ := kv
    by_cases h : k₀ = k <;> simp [objSetStr, objGet, h, ih]

theorem objGet_objSetStr_ne {V : Type} {k k' : String} (v : V) (o : List (String × V))
    (h : k' ≠ k) : objGet k' (objSetStr k v o) = objGet k' o := by
  induction o with
  | nil => simp [objSetStr, objGet, Ne.symm h]
  | cons kv rest ih =>
    obtain ⟨k₀, v₀⟩ := kv
    by_cases hk : k₀ = k
    · subst hk
      simp [objSetStr, objGet, Ne.symm h]
    · simp [objSetStr, objGet, hk, ih]

theorem mem_objSetStr {V : Type} {k : String} {v : V} {o : List (String × V)}
    {e : String × V} (h : e ∈ objSetStr k v o) : e = (k, v) ∨ e ∈ o := by
  induction o with
  | nil => simpa [objSetStr] using h
  | cons kv rest ih =>
    obtain ⟨k₀, v₀⟩ := kv
    by_cases hk : k₀ = k
    · subst hk
      simp only [objSetStr, if_pos rfl] at h
      rcases List.mem_cons.mp h with h | h
      · exact Or.inl h
      · exact Or.inr (List.mem_cons_of_mem _ h)
    · simp only [objSetStr, if_neg hk] at h
      rcases List.mem_cons.mp h with h | h
      · exact Or.inr (h ▸ List.mem_cons_self _ _)
      · rcases ih h with h | h
        · exact Or.inl h
        · exact Or.inr (List.mem_cons_of_mem _ h)

theorem keys_objSetStr_mem {V : Type} {a k : String} (v : V) (o : List (String × V)) :
    a ∈ (objSetStr k v o).map Prod.fst ↔ a = k ∨ a ∈ o.map Prod.fst := by
  induction o with
  | nil => simp [objSetStr]
  | cons kv rest ih =>
    obtain ⟨k₀, v₀⟩ := kv
    by_cases hk : k₀ = k
    · subst hk
      simp [objSetStr]
    · simp only [objSetStr, if_neg hk, List.map_cons, List.mem_cons, ih]
      tauto

theorem keys_objSetStr_nodup {V : Type} {k : String} (v : V) {o : List (String × V)}
    (h : (o.map Prod.fst).Nodup) : ((objSetStr k v o).map Prod.fst).Nodup := by
  induction o with
  | nil => simp [objSetStr]
  | cons kv rest ih =>
    obtain ⟨k₀, v₀⟩ := kv
    simp only [List.map_cons, List.nodup_cons] at h
    by_cases hk : k₀ = k
    · subst hk
      simpa [objSetStr, List.nodup_cons] using h
    · simp only [objSetStr, if_neg hk, List.map_cons, List.nodup_cons]
      refine ⟨fun hmem => ?_, ih h.2⟩
      rcases (keys_objSetStr_mem v rest).mp hmem with h' | h'
      · exact hk h'
      · exact h.1 h'

theorem objGet_objSetInt_self {V : Type} (k : Int) (v : V) (o : List (Int × V)) :
    objGet k (objSetInt k v o) = some v := by
  induction o with
  | nil => simp [objSetInt, objGet]
  | cons kv rest ih =>
    obtain ⟨k₀, v₀⟩ := kv
    by_cases h : k₀ = k
    · simp [objSetInt, objGet, h]
    · by_cases hlt : k < k₀ <;> simp [objSetInt, objGet, h, hlt, ih]

theorem objGet_objSetInt_ne {V : Type} {k k' : Int} (v : V) (o : List (Int × V))
    (h : k' ≠ k) : objGet k' (objSetInt k v o) = objGet k' o := by
  induction o with
  | nil => simp [objSetInt, objGet, Ne.symm h]
  | cons kv rest ih =>
    obtain ⟨k₀, v₀⟩ := kv
    by_cases hk : k₀ = k
    · subst hk
      simp [objSetInt, objGet, Ne.symm h]
    · by_cases hlt : k < k₀ <;>
        simp [objSetInt, objGet, hk, hlt, ih, Ne.symm h]

theorem mem_objSetInt {V : Type} {k : Int} {v : V} {o : List (Int × V)}
    {e : Int × V} (h : e ∈ objSetInt k v o) : e = (k, v) ∨ e ∈ o := by
  induction o with
  | nil => simpa [objSetInt] using h
  | cons kv rest ih =>
    obtain ⟨k₀, v₀⟩ := kv
    by_cases hk : k₀ = k
    · subst hk
      simp only [objSetInt, if_pos rfl] at h
      rcases List.mem_cons.mp h with h | h
      · exact Or.inl h
      · exact Or.inr (List.mem_cons_of_mem _ h)
    · by_cases hlt : k < k₀
      · simp only [objSetInt, if_neg hk, if_pos hlt] at h
        rcases List.mem_cons.mp h with h | h
        · exact Or.inl h
        · exact Or.inr h
      · simp only [objSetInt, if_neg hk, if_neg hlt] at h
        rcases List.mem_cons.mp h with h | h
        · exact Or.inr (h ▸ List.mem_cons_self _ _)
        · rcases ih h with h | h
          · exact Or.inl h
          · exact Or.inr (List.mem_cons_of_mem _ h)

theorem objGet_mem {K V : Type} [DecidableEq K] {k : K} {v : V} {o : List (K × V)}
    (h : objGet k o = some v) : (k, v) ∈ o := by
  induction o with
  | nil => simp [objGet] at h
  | cons kv rest ih =>
    obtain ⟨k₀, v₀⟩ := kv
    by_cases hk : k₀ = k
    · subst hk
      have hv : v₀ = v := by simpa [objGet] using h
      subst hv
      exact List.mem_cons_self _ _
    · simp only [objGet, if_neg hk] at h
      exact List.mem_cons_of_mem _ (ih h)

theorem objGet_eq_of_mem_nodup {K V : Type} [DecidableEq K] {k : K} {v : V}
    {o : List (K × V)} (hnd : (o.map Prod.fst).Nodup) (h : (k, v) ∈ o) :
    objGet k o = some v := by
  induction o with
  | nil => simp at h
  | cons kv rest ih =>
    obtain ⟨k₀, v₀⟩ := kv
    simp only [List.map_cons, List.nodup_cons] at hnd
    rcases List.mem_cons.mp h with h | h
    · rw [Prod.mk.injEq] at h
      simp [objGet, h.1, h.2]
    · have hk : k₀ ≠ k := fun he =>
        hnd.1 (he ▸ List.mem_map.mpr ⟨(k, v), h, rfl⟩)
      simp only [objGet, if_neg hk]
      exact ih hnd.2 h

theorem objGet_isSome_iff {K V : Type} [DecidableEq K] {k : K} {o : List (K × V)} :
    (objGet k o).isSome ↔ k ∈ o.map Prod.fst := by
  induction o with
  | nil => simp [objGet]
  | cons kv rest ih =>
    obtain ⟨k₀, v₀⟩ := kv
    by_cases hk : k₀ = k
    · simp [objGet, hk]
    · simp [objGet, hk, ih, Ne.symm hk]

theorem mem_setAdd {α : Type} [DecidableEq α] {x y : α} {s : List α} :
    x ∈ setAdd y s ↔ x = y ∨ x ∈ s := by
  by_cases h : y ∈ s
  · simp only [setAdd, if_pos h]
    constructor
    · exact Or.inr
    · rintro (rfl | hx) <;> assumption
  · simp [setAdd, if_neg h, List.mem_append, or_comm]

theorem setAdd_eq_of_mem {α : Type} [DecidableEq α] {y : α} {s : List α} (h : y ∈ s) :
    setAdd y s = s := by simp [setAdd, if_pos h]

theorem length_setAdd_of_not_mem {α : Type} [DecidableEq α] {y : α} {s : List α}
    (h : y ∉ s) : (setAdd y s).length = s.length + 1 := by
  simp [setAdd, if_neg h]

theorem length_le_foldl_setAdd {α : Type} [DecidableEq α] (l : List α) (s : List α) :
    s.length ≤ (l.foldl (fun s t => setAdd t s) s).length := by
  induction l generalizing s with
  | nil => simp
  | cons t rest ih =>
    refine le_trans ?_ (ih (setAdd t s))
    by_cases h : t ∈ s
    · simp [setAdd_eq_of_mem h]
    · simp [length_setAdd_of_not_mem h]

theorem foldl_setAdd_eq_of_subset {α : Type} [DecidableEq α] {l s : List α}
    (h : ∀ t ∈ l, t ∈ s) : l.foldl (fun s t => setAdd t s) s = s := by
  induction l with
  | nil => rfl
  | cons t rest ih =>
    have ht : t ∈ s := h t (List.mem_cons_self _ _)
    simp only [List.foldl_cons, setAdd_eq_of_mem ht]
    exact ih (fun t' ht' => h t' (List.mem_cons_of_mem _ ht'))

theorem length_lt_foldl_setAdd {α : Type} [DecidableEq α] {l s : List α}
    (h : ∃ t ∈ l, t ∉ s) : s.length < (l.foldl (fun s t => setAdd t s) s).length := by
  induction l generalizing s with
  | nil => simp at h
  | cons t rest ih =>
    by_cases ht : t ∈ s
    · rcases h with ⟨u, hu, hus⟩
      rcases List.mem_cons.mp hu with rfl | hu
      · exact absurd ht hus
      · simpa [setAdd_eq_of_mem ht] using ih ⟨u, hu, hus⟩
    · calc s.length < (setAdd t s).length := by simp [length_setAdd_of_not_mem ht]
        _ ≤ _ := length_le_foldl_setAdd rest (setAdd t s)

theorem mem_foldl_setAdd {α : Type} [DecidableEq α] {x : α} (l : List α) (s : List α) :
    x ∈ l.foldl (fun s t => setAdd t s) s ↔ x ∈ s ∨ x ∈ l := by
  induction l generalizing s with
  | nil => simp
  | cons t rest ih =>
    simp only [List.foldl_cons, ih (setAdd t s), mem_setAdd, List.mem_cons]
    tauto

theorem mem_setDelete {α : Type} [DecidableEq α] {x y : α} {s : List α} :
    x ∈ setDelete y s ↔ x ∈ s ∧ x ≠ y := by
  simp [setDelete, List.mem_filter]

theorem mem_foldl_setDelete {α : Type} [DecidableEq α] {x : α} (l : List α) (s : List α) :
    x ∈ l.foldl (fun s p => setDelete p s) s ↔ x ∈ s ∧ x ∉ l := by
  induction l generalizing s with
  | nil => simp
  | cons t rest ih =>
    simp only [List.foldl_cons, ih (setDelete t s), mem_setDelete, List.mem_cons]
    tauto

/-! ## SubscriptionState lemmas -/

namespace SubscriptionState

theorem pauseOne_invariant {st : SubscriptionState} {tp : TopicPartitions}
    (h : PausedInvariant st) : PausedInvariant (st.pauseOne tp) := by
  intro kv hkv hall
  cases hps : tp.partitions with
  | none =>
    simp only [pauseOne, hps] at hkv
    rcases mem_objSetStr hkv with rfl | hold
    · rfl
    · exact h _ hold hall
  | some ps =>
    simp only [pauseOne, hps] at hkv
    rcases mem_objSetStr hkv with rfl | hold
    · simp at hall
    · exact h _ hold hall

theorem pause_invariant {st : SubscriptionState} {l : List TopicPartitions}
    (h : PausedInvariant st) : PausedInvariant (st.pause l) := by
  induction l generalizing st with
  | nil => exact h
  | cons tp rest ih => exact ih (pauseOne_invariant h)

/-- Lemma: `resume` throws only the `NonRetriable` selective-resume error. -/
theorem resumeOne_error {st : SubscriptionState} {tp : TopicPartitions} {e : ClusterError}
    (h : st.resumeOne tp = .error e) : e = .nonRetriable resumeAllErrorMessage := by
  cases hps : tp.partitions with
  | none => simp [resumeOne, hps] at h
  | some ps =>
    by_cases hall :
        ((objGet tp.topic st.pausedPartitionsByTopic).getD
          { topic := tp.topic, partitions := [], all := false }).all
    · simp only [resumeOne, hps, if_pos hall, Except.error.injEq] at h
      exact h.symm
    · simp [resumeOne, hps, if_neg hall] at h

theorem resumeOne_invariant {st st' : SubscriptionState} {tp : TopicPartitions}
    (h : PausedInvariant st) (hok : st.resumeOne tp = .ok st') : PausedInvariant st' := by
  intro kv hkv hall
  cases hps : tp.partitions with
  | none =>
    simp only [resumeOne, hps, Except.ok.injEq] at hok
    subst hok
    rcases mem_objSetStr hkv with rfl | hold
    · rfl
    · exact h _ hold hall
  | some ps =>
    by_cases hcond :
        ((objGet tp.topic st.pausedPartitionsByTopic).getD
          { topic := tp.topic, partitions := [], all := false }).all
    · simp [resumeOne, hps, if_pos hcond] at hok
    · simp only [resumeOne, hps, if_neg hcond, Except.ok.injEq] at hok
      subst hok
      rcases mem_objSetStr hkv with rfl | hold
      · exact absurd hall (by simpa using hcond)
      · exact h _ hold hall

theorem resume_invariant {st : SubscriptionState} {l : List TopicPartitions}
    (h : PausedInvariant st) : PausedInvariant (st.resume l).1 := by
  induction l generalizing st with
  | nil => exact h
  | cons tp rest ih =>
    show PausedInvariant (match st.resumeOne tp with
      | .ok st' => st'.resume rest
      | .error e => (st, some e)).1
    cases hr : st.resumeOne tp with
    | ok st' => exact ih (resumeOne_invariant h hr)
    | error e => exact h

end SubscriptionState

/-! ## Claims C4, C6, C7, C9: SubscriptionState -/

/-- Claim C4: `SubscriptionState.resume` raises `NonRetriable` if and only if
it is given an explicit partitions list for a topic whose current paused
entry has `all = true`: (i) a single-entry `resume([{topic, partitions}])`
errors exactly when the stored entry for the topic has `all = true`;
(ii) every error `resume` ever produces is the `NonRetriable`
selective-resume error; (iii) `resume([{topic}])` (partitions absent) never
raises; (iv) `pause([{topic:"t"}])` followed by
`resume([{topic:"t", partitions:[0]}])` raises (scenario S5). -/
theorem claim_C4 :
    (∀ (st : SubscriptionState) (t : String) (ps : List Int),
      (st.resume [⟨t, some ps⟩]).2 ≠ none ↔
        ∃ pft, objGet t st.pausedPartitionsByTopic = some pft ∧ pft.all = true) ∧
    (∀ (st : SubscriptionState) (tps : List TopicPartitions) (e : ClusterError),
      (st.resume tps).2 = some e → e = ClusterError.nonRetriable resumeAllErrorMessage) ∧
    (∀ (st : SubscriptionState) (t : String), (st.resume [⟨t, none⟩]).2 = none) ∧
    ((SubscriptionState.empty.pause [⟨"t", none⟩]).resume [⟨"t", some [0]⟩]).2 =
      some (ClusterError.nonRetriable resumeAllErrorMessage) := by
  refine ⟨fun st t ps => ?_, fun st tps e h => ?_, fun st t => rfl, by decide⟩
  · show (match st.resumeOne ⟨t, some ps⟩ with
      | .ok st' => st'.resume []
      | .error e => (st, some e)).2 ≠ none ↔ _
    by_cases hall :
        ((objGet t st.pausedPartitionsByTopic).getD
          { topic := t, partitions := [], all := false }).all
    · simp only [SubscriptionState.resumeOne, if_pos hall]
      refine ⟨fun _ => ?_, fun _ => by simp⟩
      cases hget : objGet t st.pausedPartitionsByTopic with
      | none => rw [hget] at hall; simp at hall
      | some pft => exact ⟨pft, rfl, by rw [hget] at hall; simpa using hall⟩
    · simp only [SubscriptionState.resumeOne, if_neg hall]
      constructor
      · intro hcontra
        exact absurd rfl hcontra
      · rintro ⟨pft, hget, hpall⟩
        rw [hget] at hall
        simp [hpall] at hall
  · induction tps generalizing st with
    | nil => simp [SubscriptionState.resume] at h
    | cons tp rest ih =>
      rw [show st.resume (tp :: rest) = (match st.resumeOne tp with
        | .ok st' => st'.resume rest
        | .error e => (st, some e)) from rfl] at h
      cases hr : st.resumeOne tp with
      | ok st' =>
        rw [hr] at h
        exact ih st' h
      | error e' =>
        rw [hr] at h
        simp only at h
        cases h
        exact SubscriptionState.resumeOne_error hr

/-- Witness for C4: the S5 scenario applied through the theorem, discharging
the `(resume st tps).2 = some e` hypothesis of part (ii) at a concrete
state. -/
theorem claim_C4_witness :
    ClusterError.nonRetriable resumeAllErrorMessage =
      ClusterError.nonRetriable resumeAllErrorMessage :=
  claim_C4.2.1 (SubscriptionState.empty.pause [⟨"t", none⟩]) [⟨"t", some [0]⟩]
    (ClusterError.nonRetriable resumeAllErrorMessage) (by decide)

/-- Claim C6: starting from a state with no paused entry for `t`,
`pause([{t, [1,2]}])` followed by `resume([{t, [1,2]}])` succeeds, leaves
`paused()` containing `{topic: t, partitions: [], all: false}`, and
`isPaused(t, p)` is false for every partition `p`. -/
theorem claim_C6 (st : SubscriptionState) (t : String)
    (h : objGet t st.pausedPartitionsByTopic = none) :
    ((st.pause [⟨t, some [1, 2]⟩]).resume [⟨t, some [1, 2]⟩]).2 = none ∧
    (⟨t, [], false⟩ : PausedForTopic) ∈
      ((st.pause [⟨t, some [1, 2]⟩]).resume [⟨t, some [1, 2]⟩]).1.paused ∧
    ∀ p : Int, ((st.pause [⟨t, some [1, 2]⟩]).resume [⟨t, some [1, 2]⟩]).1.isPaused t p
      = false := by
  have h1 : st.pause [⟨t, some [1, 2]⟩] =
      ⟨objSetStr t ⟨t, [1, 2], false⟩ st.pausedPartitionsByTopic⟩ := by
    simp [SubscriptionState.pause, SubscriptionState.pauseOne, h, setAdd]
  have hget1 : objGet t (st.pause [⟨t, some [1, 2]⟩]).pausedPartitionsByTopic =
      some ⟨t, [1, 2], false⟩ := by
    rw [h1]
    exact objGet_objSetStr_self t _ _
  have h2 : (st.pause [⟨t, some [1, 2]⟩]).resume [⟨t, some [1, 2]⟩] =
      (⟨objSetStr t ⟨t, [], false⟩ (st.pause [⟨t, some [1, 2]⟩]).pausedPartitionsByTopic⟩,
        none) := by
    show (match (st.pause [⟨t, some [1, 2]⟩]).resumeOne ⟨t, some [1, 2]⟩ with
      | .ok st' => st'.resume []
      | .error e => (st.pause [⟨t, some [1, 2]⟩], some e)) = _
    rw [show (st.pause [⟨t, some [1, 2]⟩]).resumeOne ⟨t, some [1, 2]⟩ =
        .ok ⟨objSetStr t ⟨t, [], false⟩
          (st.pause [⟨t, some [1, 2]⟩]).pausedPartitionsByTopic⟩ from by
      simp [SubscriptionState.resumeOne, hget1, setDelete]]
    rfl
  have hget2 : objGet t ((st.pause [⟨t, some [1, 2]⟩]).resume
      [⟨t, some [1, 2]⟩]).1.pausedPartitionsByTopic = some ⟨t, [], false⟩ := by
    rw [h2]
    exact objGet_objSetStr_self t _ _
  refine ⟨by rw [h2], ?_, fun p => ?_⟩
  · exact List.mem_map.mpr ⟨(t, ⟨t, [], false⟩), objGet_mem hget2, rfl⟩
  · simp [SubscriptionState.isPaused, hget2]

/-- Claim C7: every sequence of `pause`/`resume` operations (the queries
`paused` and `isPaused` leave the state alone) preserves the invariant that
an entry with `all = true` has an empty partition set. -/
theorem claim_C7 (st : SubscriptionState) (ops : List SubscriptionOp)
    (h : PausedInvariant st) : PausedInvariant (applyOps st ops) := by
  induction ops generalizing st with
  | nil => exact h
  | cons op rest ih =>
    show PausedInvariant (applyOps (applyOp st op) rest)
    refine ih _ ?_
    cases op with
    | pause l => exact SubscriptionState.pause_invariant h
    | resume l => exact SubscriptionState.resume_invariant h

/-- Witness for C7: the invariant survives a concrete pause-all, a partial
pause and a throwing resume from the empty state. -/
theorem claim_C7_witness :
    PausedInvariant (applyOps SubscriptionState.empty
      [.pause [⟨"t", none⟩], .pause [⟨"u", some [1]⟩], .resume [⟨"t", some [0]⟩]]) :=
  claim_C7 SubscriptionState.empty
    [.pause [⟨"t", none⟩], .pause [⟨"u", some [1]⟩], .resume [⟨"t", some [0]⟩]]
    (by intro kv hkv; simp [SubscriptionState.empty] at hkv)

/-- Claim C9: `pause` with an explicit partitions list on a topic whose entry
is in `all = true` state clears the `all` flag, and afterwards exactly the
listed partitions are paused: `isPaused(t, p)` holds iff `p ∈ ps`. -/
theorem claim_C9 (st : SubscriptionState) (t : String) (ps : List Int)
    (pft : PausedForTopic) (hInv : PausedInvariant st)
    (hget : objGet t st.pausedPartitionsByTopic = some pft) (hall : pft.all = true) :
    (∃ pft', objGet t (st.pause [⟨t, some ps⟩]).pausedPartitionsByTopic = some pft' ∧
      pft'.all = false) ∧
    ∀ p : Int, (st.pause [⟨t, some ps⟩]).isPaused t p = true ↔ p ∈ ps := by
  have hempty : pft.partitions = [] := hInv (t, pft) (objGet_mem hget) hall
  have h1 : st.pause [⟨t, some ps⟩] =
      ⟨objSetStr t { pft with partitions := ps.foldl (fun s p => setAdd p s) [], all := false }
        st.pausedPartitionsByTopic⟩ := by
    simp [SubscriptionState.pause, SubscriptionState.pauseOne, hget, hempty]
  have hget1 : objGet t (st.pause [⟨t, some ps⟩]).pausedPartitionsByTopic =
      some { pft with partitions := ps.foldl (fun s p => setAdd p s) [], all := false } := by
    rw [h1]
    exact objGet_objSetStr_self t _ _
  refine ⟨⟨_, hget1, rfl⟩, fun p => ?_⟩
  simp only [SubscriptionState.isPaused, hget1, Bool.false_or]
  exact List.elem_iff.trans ((mem_foldl_setAdd ps []).trans (by simp))

/-- Witness for C6: the round trip run from the empty subscription state. -/
theorem claim_C6_witness :
    ((SubscriptionState.empty.pause [⟨"t", some [1, 2]⟩]).resume [⟨"t", some [1, 2]⟩]).2
      = none :=
  (claim_C6 SubscriptionState.empty "t" rfl).1

/-- Witness for C9: pausing partition 5 of a fully paused topic clears
`all` and pauses exactly partition 5. -/
theorem claim_C9_witness :
    (∃ pft', objGet "t" ((SubscriptionState.empty.pause [⟨"t", none⟩]).pause
        [⟨"t", some [5]⟩]).pausedPartitionsByTopic = some pft' ∧ pft'.all = false) ∧
    ((SubscriptionState.empty.pause [⟨"t", none⟩]).pause [⟨"t", some [5]⟩]).isPaused "t" 5
      = true :=
  ⟨(claim_C9 (SubscriptionState.empty.pause [⟨"t", none⟩]) "t" [5] ⟨"t", [], true⟩
      (SubscriptionState.pause_invariant (fun kv hkv => absurd hkv (List.not_mem_nil kv)))
      rfl rfl).1,
   ((claim_C9 (SubscriptionState.empty.pause [⟨"t", none⟩]) "t" [5] ⟨"t", [], true⟩
      (SubscriptionState.pause_invariant (fun kv hkv => absurd hkv (List.not_mem_nil kv)))
      rfl rfl).2 5).mpr (by simp)⟩

/-! ## Claims C5, C8: target topics and controller lookup -/

/-- Claim C5: `addMultipleTargetTopics` awaits `refreshMetadata()` (at most once
per call by construction) exactly when some given topic is new to the target
set or no snapshot is loaded; `addTargetTopic(t)` therefore refreshes exactly
when `t` is new or no snapshot is loaded, and a repeated call with the same
topic over a loaded snapshot refreshes nothing. -/
theorem claim_C5 (cluster : ClusterState) (topics : List String) (t : String) :
    ((Cluster.addMultipleTargetTopics cluster topics).2 = true ↔
      (∃ u ∈ topics, u ∉ cluster.targetTopics) ∨ cluster.metadata = none) ∧
    ((Cluster.addTargetTopic cluster t).2 = true ↔
      t ∉ cluster.targetTopics ∨ cluster.metadata = none) := by
  have main : ∀ ts : List String,
      ((Cluster.addMultipleTargetTopics cluster ts).2 = true ↔
        (∃ u ∈ ts, u ∉ cluster.targetTopics) ∨ cluster.metadata = none) := by
    intro ts
    simp only [Cluster.addMultipleTargetTopics, decide_eq_true_eq]
    constructor
    · rintro (hne | hnone)
      · by_cases hex : ∃ u ∈ ts, u ∉ cluster.targetTopics
        · exact Or.inl hex
        · push_neg at hex
          exact absurd (by rw [foldl_setAdd_eq_of_subset hex]) hne
      · exact Or.inr hnone
    · rintro (hex | hnone)
      · exact Or.inl (Nat.ne_of_lt (length_lt_foldl_setAdd hex))
      · exact Or.inr hnone
  exact ⟨main topics, (main [t]).trans (by simp)⟩

/-- Claim C8: `findControllerBroker` fails `MetadataNotLoaded` — independently
of the broker resolver, i.e. without any broker lookup — whenever the
snapshot is absent or its `controllerId` is null; otherwise it resolves that
`controllerId` through `findBroker` and returns its broker, mapping a falsy
result to `BrokerNotFound`. -/
theorem claim_C8 {B : Type} (findBroker findBroker' : Int → Except ClusterError (Option B))
    (cluster : ClusterState) :
    (cluster.metadata.bind (fun md => md.controllerId) = none →
      Cluster.findControllerBroker findBroker cluster =
        Except.error ClusterError.metadataNotLoaded ∧
      Cluster.findControllerBroker findBroker cluster =
        Cluster.findControllerBroker findBroker' cluster) ∧
    (∀ cid, cluster.metadata.bind (fun md => md.controllerId) = some cid →
      Cluster.findControllerBroker findBroker cluster =
        (findBroker cid).bind (fun broker =>
          match broker with
          | none => Except.error (ClusterError.brokerNotFound cid)
          | some b => Except.ok b)) := by
  cases hmd : cluster.metadata with
  | none =>
    exact ⟨fun _ => ⟨by simp [Cluster.findControllerBroker, hmd],
      by simp [Cluster.findControllerBroker, hmd]⟩, fun cid hcid => by simp at hcid⟩
  | some md =>
    cases hcid : md.controllerId with
    | none =>
      refine ⟨fun _ => ⟨by simp [Cluster.findControllerBroker, hmd, hcid],
        by simp [Cluster.findControllerBroker, hmd, hcid]⟩, fun cid hcid' => ?_⟩
      simp [hcid] at hcid'
    | some c =>
      refine ⟨fun habs => by simp [hcid] at habs, fun cid hcid' => ?_⟩
      have hc : c = cid := by simpa [hcid] using hcid'
      subst hc
      simp only [Cluster.findControllerBroker, hmd, hcid]
      cases hb : findBroker c with
      | error e => rfl
      | ok ob => cases ob <;> rfl

/-! ## Leader grouping: claims C2 and C3 -/

namespace Cluster

theorem findLeaderForPartitions_eq {cluster : ClusterState} {topic : String}
    {pm : List PartitionMetadata} (partitions : List Int)
    (h : findTopicPartitionMetadata cluster topic = .ok pm) :
    findLeaderForPartitions cluster topic partitions =
      partitions.foldlM (addLeaderForPartition topic pm) [] := by
  unfold findLeaderForPartitions
  rw [h]
  rfl

theorem except_bind_ok {e a b : Type} (x : a) (f : a → Except e b) :
    (Except.ok x >>= f) = f x := rfl

theorem except_bind_error {e a b : Type} (err : e) (f : a → Except e b) :
    ((Except.error err : Except e a) >>= f) = Except.error err := rfl

/-- Characterization of the grouping fold when no requested id has a
present-but-leaderless metadata entry: it succeeds and each
`result[leader]` extends the accumulator entry with exactly the requested
ids led by `leader`, in request order. -/
theorem foldl_addLeader_ok (topic : String) (pm : List PartitionMetadata)
    (partitions : List Int) (acc : List (Int × List Int))
    (h : ∀ id ∈ partitions, ∀ md, pm.find? (fun p => p.partitionId = id) = some md →
      md.leader ≠ none) :
    ∃ m, partitions.foldlM (addLeaderForPartition topic pm) acc = .ok m ∧
      ∀ leader, objGet leader m =
        groupVal (objGet leader acc) (leadersFilter pm partitions leader) := by
  induction partitions generalizing acc with
  | nil =>
    refine ⟨acc, rfl, fun leader => ?_⟩
    cases objGet leader acc <;> simp [leadersFilter, groupVal]
  | cons id rest ih =>
    cases hfind : pm.find? (fun p => p.partitionId = id) with
    | none =>
      obtain ⟨m, hm, hchar⟩ := ih acc (fun i hi => h i (List.mem_cons_of_mem _ hi))
      refine ⟨m, ?_, fun leader => ?_⟩
      · simpa [List.foldlM_cons, addLeaderForPartition, hfind, except_bind_ok] using hm
      · rw [hchar leader]
        have : leadersFilter pm (id :: rest) leader = leadersFilter pm rest leader := by
          simp [leadersFilter, leaderOf, hfind]
        rw [this]
    | some md =>
      cases hld : md.leader with
      | none => exact absurd hld (h id (List.mem_cons_self _ _) md hfind)
      | some L =>
        obtain ⟨m, hm, hchar⟩ :=
          ih (objSetInt L ((objGet L acc).getD [] ++ [id]) acc)
            (fun i hi => h i (List.mem_cons_of_mem _ hi))
        refine ⟨m, ?_, fun leader => ?_⟩
        · simpa [List.foldlM_cons, addLeaderForPartition, hfind, hld, except_bind_ok] using hm
        · rw [hchar leader]
          by_cases hL : leader = L
          · subst hL
            rw [objGet_objSetInt_self]
            have : leadersFilter pm (id :: rest) leader =
                id :: leadersFilter pm rest leader := by
              simp [leadersFilter, leaderOf, hfind, hld]
            rw [this]
            cases objGet leader acc <;> simp [groupVal]
          · rw [objGet_objSetInt_ne _ _ hL]
            have hne : leaderOf pm id ≠ some leader := by
              rw [leaderOf, hfind]
              intro hcontra
              have hLeq : L = leader := by simpa [hld] using hcontra
              exact hL hLeq.symm
            have : leadersFilter pm (id :: rest) leader = leadersFilter pm rest leader := by
              simp [leadersFilter, List.filter_cons, hne]
            rw [this]

/-- When some requested id has a metadata entry with a null leader, the
grouping fold throws `InvalidPartitionMetadata`. -/
theorem foldl_addLeader_error (topic : String) (pm : List PartitionMetadata)
    (partitions : List Int) (acc : List (Int × List Int))
    (h : ∃ id ∈ partitions, ∃ md, pm.find? (fun p => p.partitionId = id) = some md ∧
      md.leader = none) :
    ∃ pid, partitions.foldlM (addLeaderForPartition topic pm) acc =
      .error (.invalidPartitionMetadata topic pid) := by
  induction partitions generalizing acc with
  | nil => simp at h
  | cons id rest ih =>
    by_cases hbad : ∃ md, pm.find? (fun p => p.partitionId = id) = some md ∧
        md.leader = none
    · rcases hbad with ⟨md₀, hf₀, hl₀⟩
      exact ⟨id, by simp [List.foldlM_cons, addLeaderForPartition, hf₀, hl₀, except_bind_error]⟩
    · have hrest : ∃ i ∈ rest, ∃ md, pm.find? (fun p => p.partitionId = i) = some md ∧
          md.leader = none := by
        rcases h with ⟨i, hi, md, hf, hl⟩
        rcases List.mem_cons.mp hi with rfl | hmem
        · exact absurd ⟨md, hf, hl⟩ hbad
        · exact ⟨i, hmem, md, hf, hl⟩
      cases hf : pm.find? (fun p => p.partitionId = id) with
      | none =>
        obtain ⟨pid, hpid⟩ := ih acc hrest
        exact ⟨pid, by simpa [List.foldlM_cons, addLeaderForPartition, hf, except_bind_ok] using hpid⟩
      | some md₀ =>
        cases hl : md₀.leader with
        | none => exact absurd ⟨md₀, hf, hl⟩ hbad
        | some L =>
          obtain ⟨pid, hpid⟩ := ih (objSetInt L ((objGet L acc).getD [] ++ [id]) acc) hrest
          exact ⟨pid, by simpa [List.foldlM_cons, addLeaderForPartition, hf, hl, except_bind_ok] using hpid⟩

end Cluster

/-! ## Merging listOffsets responses -/

theorem responsePartitionsFor_cons (t : String) (r : ResponseTopic)
    (rest : List ResponseTopic) :
    responsePartitionsFor t (r :: rest) =
      if r.topic = t then r.partitions ++ responsePartitionsFor t rest
      else responsePartitionsFor t rest := by
  simp only [responsePartitionsFor, List.filter_cons]
  by_cases ht : r.topic = t
  · simp [ht]
  · simp [ht]

theorem objGet_foldl_mergeTopics_some {t : String} {p : List ResponsePartition}
    (rs : List ResponseTopic) (acc : List (String × List ResponsePartition))
    (h : objGet t acc = some p) :
    objGet t (rs.foldl mergeTopics acc) = some (p ++ responsePartitionsFor t rs) := by
  induction rs generalizing acc p with
  | nil => simp [responsePartitionsFor, h]
  | cons r rest ih =>
    rw [List.foldl_cons, responsePartitionsFor_cons]
    by_cases ht : r.topic = t
    · subst ht
      have hstep : objGet r.topic (mergeTopics acc r) = some (p ++ r.partitions) := by
        simp only [mergeTopics, h, Option.getD_some]
        exact objGet_objSetStr_self _ _ _
      rw [ih (mergeTopics acc r) hstep, if_pos rfl]
      simp
    · have hstep : objGet t (mergeTopics acc r) = some p := by
        rw [mergeTopics, objGet_objSetStr_ne _ _ (fun he => ht he.symm)]
        exact h
      rw [ih (mergeTopics acc r) hstep, if_neg ht]

theorem objGet_foldl_mergeTopics_none {t : String}
    (rs : List ResponseTopic) (acc : List (String × List ResponsePartition))
    (h : objGet t acc = none) :
    objGet t (rs.foldl mergeTopics acc) =
      if t ∈ rs.map (fun r => r.topic) then some (responsePartitionsFor t rs) else none := by
  induction rs generalizing acc with
  | nil => simp [h]
  | cons r rest ih =>
    rw [List.foldl_cons, responsePartitionsFor_cons]
    by_cases ht : r.topic = t
    · subst ht
      have hstep : objGet r.topic (mergeTopics acc r) = some r.partitions := by
        simp only [mergeTopics, h, Option.getD_none, List.nil_append]
        exact objGet_objSetStr_self _ _ _
      rw [objGet_foldl_mergeTopics_some rest _ hstep]
      simp
    · have hstep : objGet t (mergeTopics acc r) = none := by
        rw [mergeTopics, objGet_objSetStr_ne _ _ (fun he => ht he.symm)]
        exact h
      rw [ih _ hstep, if_neg ht]
      have ht' : ¬t = r.topic := fun he => ht he.symm
      simp [List.mem_cons, ht']

theorem keys_foldl_mergeTopics_nodup (rs : List ResponseTopic)
    (acc : List (String × List ResponsePartition))
    (h : (acc.map Prod.fst).Nodup) :
    ((rs.foldl mergeTopics acc).map Prod.fst).Nodup := by
  induction rs generalizing acc with
  | nil => exact h
  | cons r rest ih => exact ih _ (keys_objSetStr_nodup _ h)

/-! ## The fetchTopicsOffset index -/

namespace Cluster

/-- Every topic filed by the inner per-leader loop either was already in the
accumulator or is the topic currently being indexed. -/
theorem fileLeader_topics (td : TopicOffsetQuery) (pl : List (Int × List Int))
    (keyList : List Int) (ppb : List (Int × List (String × List InputPartition))) :
    ∀ kv ∈ keyList.foldl (fileLeader td pl) ppb, ∀ tkv ∈ kv.2,
      (∃ kv₀ ∈ ppb, tkv ∈ kv₀.2) ∨ tkv.1 = td.topic := by
  induction keyList generalizing ppb with
  | nil =>
    intro kv hkv tkv htkv
    exact Or.inl ⟨kv, hkv, htkv⟩
  | cons n rest ih =>
    intro kv hkv tkv htkv
    rcases ih (fileLeader td pl ppb n) kv hkv tkv htkv with ⟨kv₀, hkv₀, htkv₀⟩ | heq
    · rcases mem_objSetInt hkv₀ with rfl | hold
      · rcases mem_objSetStr htkv₀ with rfl | hfor
        · exact Or.inr rfl
        · cases hget : objGet n ppb with
          | none => rw [hget] at hfor; simp at hfor
          | some per =>
            rw [hget] at hfor
            exact Or.inl ⟨(n, per), objGet_mem hget, hfor⟩
      · exact Or.inl ⟨kv₀, hold, htkv₀⟩
    · exact Or.inr heq

/-- Every topic in the built per-broker index comes from the input list. -/
theorem buildOffsetIndex_topics (cluster : ClusterState) (topics : List TopicOffsetQuery)
    (acc idx : OffsetIndex)
    (h : topics.foldlM (indexTopicQuery cluster) acc = .ok idx) :
    ∀ kv ∈ idx.partitionsPerBroker, ∀ tkv ∈ kv.2,
      (∃ kv₀ ∈ acc.partitionsPerBroker, tkv ∈ kv₀.2) ∨ ∃ q ∈ topics, q.topic = tkv.1 := by
  induction topics generalizing acc with
  | nil =>
    intro kv hkv tkv htkv
    cases h
    exact Or.inl ⟨kv, hkv, htkv⟩
  | cons q rest ih =>
    rw [List.foldlM_cons] at h
    cases hpl : findLeaderForPartitions cluster q.topic
        (q.partitions.map (fun p => p.partition)) with
    | error e =>
      rw [show indexTopicQuery cluster acc q = .error e from by
        simp [indexTopicQuery, hpl, except_bind_error]] at h
      simp [except_bind_error] at h
    | ok pl =>
      rw [show indexTopicQuery cluster acc q = .ok
          ⟨(pl.map (fun kv => kv.1)).foldl (fileLeader q pl) acc.partitionsPerBroker,
            objSetStr q.topic q.fromBeginning acc.topicConfigurations⟩ from by
        simp [indexTopicQuery, hpl, except_bind_ok]] at h
      rw [except_bind_ok] at h
      intro kv hkv tkv htkv
      rcases ih _ h kv hkv tkv htkv with ⟨kv₀, hkv₀, htkv₀⟩ | ⟨q', hq', hqt⟩
      · rcases fileLeader_topics q pl _ _ kv₀ hkv₀ tkv htkv₀ with ⟨kv₁, hkv₁, htkv₁⟩ | heq
        · exact Or.inl ⟨kv₁, hkv₁, htkv₁⟩
        · exact Or.inr ⟨q, List.mem_cons_self _ _, heq.symm⟩
      · exact Or.inr ⟨q', List.mem_cons_of_mem _ hq', hqt⟩

/-- Indexing topics none of which is `t` leaves `topicConfigurations[t]`
alone. -/
theorem buildOffsetIndex_config_preserved (cluster : ClusterState)
    (topics : List TopicOffsetQuery) (acc idx : OffsetIndex) (t : String)
    (h : topics.foldlM (indexTopicQuery cluster) acc = .ok idx)
    (hne : ∀ q ∈ topics, q.topic ≠ t) :
    objGet t idx.topicConfigurations = objGet t acc.topicConfigurations := by
  induction topics generalizing acc with
  | nil => cases h; rfl
  | cons q rest ih =>
    rw [List.foldlM_cons] at h
    cases hpl : findLeaderForPartitions cluster q.topic
        (q.partitions.map (fun p => p.partition)) with
    | error e =>
      rw [show indexTopicQuery cluster acc q = .error e from by
        simp [indexTopicQuery, hpl, except_bind_error]] at h
      simp [except_bind_error] at h
    | ok pl =>
      rw [show indexTopicQuery cluster acc q = .ok
          ⟨(pl.map (fun kv => kv.1)).foldl (fileLeader q pl) acc.partitionsPerBroker,
            objSetStr q.topic q.fromBeginning acc.topicConfigurations⟩ from by
        simp [indexTopicQuery, hpl, except_bind_ok]] at h
      rw [except_bind_ok] at h
      rw [ih _ h (fun q' hq' => hne q' (List.mem_cons_of_mem _ hq'))]
      exact objGet_objSetStr_ne _ _ (fun he => hne q (List.mem_cons_self _ _) he.symm)

/-- With pairwise-distinct input topics, the built `topicConfigurations`
stores the `fromBeginning` of each input topic. -/
theorem buildOffsetIndex_config (cluster : ClusterState) (topics : List TopicOffsetQuery)
    (acc idx : OffsetIndex)
    (h : topics.foldlM (indexTopicQuery cluster) acc = .ok idx)
    (hnd : (topics.map (fun q => q.topic)).Nodup) :
    ∀ q ∈ topics, objGet q.topic idx.topicConfigurations = some q.fromBeginning := by
  induction topics generalizing acc with
  | nil => intro q hq; simp at hq
  | cons q₀ rest ih =>
    rw [List.foldlM_cons] at h
    simp only [List.map_cons, List.nodup_cons] at hnd
    cases hpl : findLeaderForPartitions cluster q₀.topic
        (q₀.partitions.map (fun p => p.partition)) with
    | error e =>
      rw [show indexTopicQuery cluster acc q₀ = .error e from by
        simp [indexTopicQuery, hpl, except_bind_error]] at h
      simp [except_bind_error] at h
    | ok pl =>
      rw [show indexTopicQuery cluster acc q₀ = .ok
          ⟨(pl.map (fun kv => kv.1)).foldl (fileLeader q₀ pl) acc.partitionsPerBroker,
            objSetStr q₀.topic q₀.fromBeginning acc.topicConfigurations⟩ from by
        simp [indexTopicQuery, hpl, except_bind_ok]] at h
      rw [except_bind_ok] at h
      intro q hq
      rcases List.mem_cons.mp hq with rfl | hmem
      · have hne : ∀ q' ∈ rest, q'.topic ≠ q.topic := by
          intro q' hq' he
          exact hnd.1 (he ▸ List.mem_map.mpr ⟨q', hq', rfl⟩)
        rw [buildOffsetIndex_config_preserved cluster rest _ idx q.topic h hne]
        exact objGet_objSetStr_self _ _ _
      · exact ih _ h hnd.2 q hmem

end Cluster

/-- Claim C2: over a loaded snapshot, when every requested partition id has a
metadata entry naming a leader, `findLeaderForPartitions` succeeds and maps
each leader `nodeId` to exactly the requested partition ids whose metadata
names that node as leader (`result[leader]` is the in-order sublist of the
requested ids led by `leader`, absent when empty); in particular, on the S1
snapshot `{0→1, 1→2, 2→1}` it maps `1 ↦ [0,2]` and `2 ↦ [1]`. -/
theorem claim_C2 (cluster : ClusterState) (topic : String)
    (pm : List PartitionMetadata) (partitions : List Int)
    (hpm : Cluster.findTopicPartitionMetadata cluster topic = .ok pm)
    (hld : ∀ id ∈ partitions, (leaderOf pm id).isSome) :
    (∃ m, Cluster.findLeaderForPartitions cluster topic partitions = .ok m ∧
      ∀ leader, objGet leader m = groupVal none (leadersFilter pm partitions leader)) ∧
    Cluster.findLeaderForPartitions exCluster "t" [0, 1, 2] =
      .ok [(1, [0, 2]), (2, [1])] := by
  constructor
  · have h : ∀ id ∈ partitions, ∀ md,
        pm.find? (fun p => p.partitionId = id) = some md → md.leader ≠ none := by
      intro id hid md hmd hnone
      have hs := hld id hid
      rw [leaderOf, hmd] at hs
      simp [hnone] at hs
    obtain ⟨m, hm, hchar⟩ := Cluster.foldl_addLeader_ok topic pm partitions [] h
    exact ⟨m, (Cluster.findLeaderForPartitions_eq partitions hpm).trans hm,
      fun leader => hchar leader⟩
  · rfl

/-- Witness for C2: the S1 scenario through the theorem's concrete
conjunct. -/
theorem claim_C2_witness :
    Cluster.findLeaderForPartitions exCluster "t" [0, 1, 2] =
      .ok [(1, [0, 2]), (2, [1])] :=
  (claim_C2 exCluster "t"
    [exPartition 0 (some 1), exPartition 1 (some 2), exPartition 2 (some 1)]
    [0, 1, 2] rfl (by decide)).2

/-- Claim C3: over a loaded snapshot, (i) `findLeaderForPartitions` raises an
`InvalidPartitionMetadata`-kind error exactly when some requested partition
id has a metadata entry whose `leader` is null; (ii) it otherwise succeeds
(those are the only two outcomes); (iii) on success, a requested id with no
metadata entry is silently omitted from the group of every leader. -/
theorem claim_C3 (cluster : ClusterState) (topic : String)
    (pm : List PartitionMetadata) (partitions : List Int)
    (hpm : Cluster.findTopicPartitionMetadata cluster topic = .ok pm) :
    ((∃ pid, Cluster.findLeaderForPartitions cluster topic partitions =
        .error (.invalidPartitionMetadata topic pid)) ↔
      ∃ id ∈ partitions, ∃ md, pm.find? (fun p => p.partitionId = id) = some md ∧
        md.leader = none) ∧
    ((∃ m, Cluster.findLeaderForPartitions cluster topic partitions = .ok m) ∨
      (∃ pid, Cluster.findLeaderForPartitions cluster topic partitions =
        .error (.invalidPartitionMetadata topic pid))) ∧
    (∀ m, Cluster.findLeaderForPartitions cluster topic partitions = .ok m →
      ∀ id ∈ partitions, pm.find? (fun p => p.partitionId = id) = none →
        ∀ leader l, objGet leader m = some l → id ∉ l) := by
  rw [Cluster.findLeaderForPartitions_eq partitions hpm]
  by_cases hbad : ∃ id ∈ partitions, ∃ md,
      pm.find? (fun p => p.partitionId = id) = some md ∧ md.leader = none
  · obtain ⟨pid, hpid⟩ := Cluster.foldl_addLeader_error topic pm partitions [] hbad
    refine ⟨⟨fun _ => hbad, fun _ => ⟨pid, hpid⟩⟩, Or.inr ⟨pid, hpid⟩, fun m hm => ?_⟩
    rw [hm] at hpid
    simp at hpid
  · have h : ∀ id ∈ partitions, ∀ md,
        pm.find? (fun p => p.partitionId = id) = some md → md.leader ≠ none := by
      intro id hid md hmd hnone
      exact hbad ⟨id, hid, md, hmd, hnone⟩
    obtain ⟨m, hm, hchar⟩ := Cluster.foldl_addLeader_ok topic pm partitions [] h
    refine ⟨⟨fun ⟨pid, hpid⟩ => ?_, fun hb => absurd hb hbad⟩, Or.inl ⟨m, hm⟩,
      fun m' hm' id hid hfnone leader l hgl hml => ?_⟩
    · rw [hm] at hpid
      simp at hpid
    · rw [hm] at hm'
      cases hm'
      rw [hchar leader] at hgl
      have hl : l = leadersFilter pm partitions leader := by
        cases hflt : leadersFilter pm partitions leader with
        | nil => rw [hflt] at hgl; simp [groupVal, objGet] at hgl
        | cons x xs => rw [hflt] at hgl; simpa [groupVal, objGet] using hgl.symm
      rw [hl] at hml
      have : leaderOf pm id = some leader := by
        simpa [leadersFilter] using (List.mem_filter.mp hml).2
      rw [leaderOf, hfnone] at this
      simp at this

/-- Witness for C3: on the null-leader snapshot the lookup for partitions
`[0, 1]` throws `InvalidPartitionMetadata`. -/
theorem claim_C3_witness :
    ∃ pid, Cluster.findLeaderForPartitions exClusterNullLeader "t" [0, 1] =
      .error (.invalidPartitionMetadata "t" pid) :=
  (claim_C3 exClusterNullLeader "t" [exPartition 0 (some 1), exPartition 1 none]
    [0, 1] rfl).1.mpr ⟨1, by decide, exPartition 1 none, rfl, rfl⟩

/-! ## Claim C1: fetchTopicsOffset request construction and regrouping -/

/-- When request building succeeds, `fetchTopicsOffset` is exactly the
regrouped projection of the flattened oracle responses. -/
theorem fetchTopicsOffset_eq (cluster : ClusterState) (topics : List TopicOffsetQuery)
    (oracle : Int → ListOffsetsRequest → List ResponseTopic)
    (requests : List (Int × ListOffsetsRequest))
    (hreq : Cluster.buildOffsetRequests cluster topics = .ok requests) :
    Cluster.fetchTopicsOffset cluster oracle topics =
      .ok (regroupOffsets ((requests.map (fun kv => oracle kv.1 kv.2)).flatten)) := by
  simp only [Cluster.fetchTopicsOffset, hreq, Cluster.except_bind_ok]
  rfl

/-- The regrouping: duplicate-free topics, topic presence mirrors the merged
responses, and each entry carries the merged partitions of its topic
projected to `{partition, offset}`. -/
theorem regroup_spec (merged : List ResponseTopic) :
    ((regroupOffsets merged).map (fun e => e.topic)).Nodup ∧
    (∀ t, t ∈ (regroupOffsets merged).map (fun e => e.topic) ↔
      t ∈ merged.map (fun r => r.topic)) ∧
    ∀ entry ∈ regroupOffsets merged, entry.partitions =
      (responsePartitionsFor entry.topic merged).map (fun p => ⟨p.partition, p.offset⟩) := by
  have hnd := keys_foldl_mergeTopics_nodup merged [] (by simp)
  have hkeys : (regroupOffsets merged).map (fun e => e.topic) =
      (merged.foldl mergeTopics []).map Prod.fst := by
    rw [regroupOffsets, List.map_map]
    exact List.map_congr_left (fun kv _ => rfl)
  refine ⟨?_, fun t => ?_, fun entry hentry => ?_⟩
  · rw [hkeys]
    exact hnd
  · rw [hkeys, ← objGet_isSome_iff, objGet_foldl_mergeTopics_none merged [] rfl]
    by_cases hmem : t ∈ merged.map (fun r => r.topic) <;> simp [hmem]
  · obtain ⟨⟨k, v⟩, hkv, rfl⟩ := List.mem_map.mp hentry
    have hget := objGet_eq_of_mem_nodup hnd hkv
    rw [objGet_foldl_mergeTopics_none merged [] rfl] at hget
    by_cases hmem : k ∈ merged.map (fun r => r.topic)
    · rw [if_pos hmem] at hget
      have hv := Option.some.inj hget
      show v.map _ = _
      rw [← hv]
    · rw [if_neg hmem] at hget
      simp at hget

/-- Claim C1: over a loaded snapshot with one descriptor per topic: every
`listOffsets` request `fetchTopicsOffset` builds carries the isolation level
of the cluster and gives every partition descriptor the timestamp
`EARLIEST_OFFSET` (-2) when the `fromBeginning` of its topic is true and
`LATEST_OFFSET` (-1) otherwise; and the merged responses are regrouped so
that each topic appears in exactly one output entry (the output topics are
duplicate-free and are exactly the merged response topics) whose partitions
are the merged response partitions for that topic projected to
`{partition, offset}`. -/
theorem claim_C1 (cluster : ClusterState) (topics : List TopicOffsetQuery)
    (requests : List (Int × ListOffsetsRequest))
    (oracle : Int → ListOffsetsRequest → List ResponseTopic)
    (hNodup : (topics.map (fun q => q.topic)).Nodup)
    (hreq : Cluster.buildOffsetRequests cluster topics = .ok requests) :
    (∀ nr ∈ requests, nr.2.isolationLevel = cluster.isolationLevel ∧
      ∀ rt ∈ nr.2.topics, ∃ q ∈ topics, q.topic = rt.topic ∧
        ∀ p ∈ rt.partitions, p.timestamp =
          if q.fromBeginning then Cluster.EARLIEST_OFFSET else Cluster.LATEST_OFFSET) ∧
    (∃ output, Cluster.fetchTopicsOffset cluster oracle topics = .ok output ∧
      (output.map (fun e => e.topic)).Nodup ∧
      (∀ t, t ∈ output.map (fun e => e.topic) ↔
        t ∈ ((requests.map (fun kv => oracle kv.1 kv.2)).flatten.map (fun r => r.topic))) ∧
      ∀ entry ∈ output, entry.partitions =
        (responsePartitionsFor entry.topic
            (requests.map (fun kv => oracle kv.1 kv.2)).flatten).map
          (fun p => ⟨p.partition, p.offset⟩)) := by
  cases hidx : Cluster.buildOffsetIndex cluster topics with
  | error e =>
    rw [show Cluster.buildOffsetRequests cluster topics = .error e from by
      simp [Cluster.buildOffsetRequests, hidx, Cluster.except_bind_error]] at hreq
    cases hreq
  | ok idx =>
    have hidx' : topics.foldlM (Cluster.indexTopicQuery cluster) ⟨[], []⟩ = .ok idx := hidx
    have hreq0 : Cluster.buildOffsetRequests cluster topics = .ok
        (idx.partitionsPerBroker.map (fun kv =>
          (kv.1, Cluster.requestForBroker cluster idx.topicConfigurations kv.2))) := by
      simp [Cluster.buildOffsetRequests, hidx, Cluster.except_bind_ok]
    rw [hreq0] at hreq
    cases hreq
    constructor
    · intro nr hnr
      obtain ⟨kv, hkv, rfl⟩ := List.mem_map.mp hnr
      refine ⟨rfl, ?_⟩
      intro rt hrt
      obtain ⟨tkv, htkv, rfl⟩ := List.mem_map.mp hrt
      rcases Cluster.buildOffsetIndex_topics cluster topics ⟨[], []⟩ idx hidx' kv hkv
          tkv htkv with ⟨kv₀, hkv₀, -⟩ | ⟨q, hq, hqt⟩
      · simp at hkv₀
      · refine ⟨q, hq, hqt, ?_⟩
        intro p hp
        obtain ⟨p₀, hp₀, rfl⟩ := List.mem_map.mp hp
        have hcfg := Cluster.buildOffsetIndex_config cluster topics ⟨[], []⟩ idx hidx'
          hNodup q hq
        show Cluster.defaultOffset ((objGet tkv.1 idx.topicConfigurations).getD false) = _
        rw [← hqt, hcfg]
        rfl
    · obtain ⟨h1, h2, h3⟩ := regroup_spec (((idx.partitionsPerBroker.map (fun kv =>
          (kv.1, Cluster.requestForBroker cluster idx.topicConfigurations kv.2))).map
            (fun kv => oracle kv.1 kv.2)).flatten)
      exact ⟨_, fetchTopicsOffset_eq cluster topics oracle _ hreq0, h1, h2, h3⟩

/-- Witness for C1: the S2 scenario — topic `t`, partitions 0 and 1,
`fromBeginning = true` — over the S1 snapshot, with the benign oracle. -/
theorem claim_C1_witness :
    Cluster.fetchTopicsOffset exCluster exOracleOk [⟨"t", [⟨0⟩, ⟨1⟩], true⟩] =
      .ok [⟨"t", [⟨0, some "42"⟩, ⟨1, some "42"⟩]⟩] := by
  obtain ⟨output, hout, -, -, -⟩ := (claim_C1 exCluster [⟨"t", [⟨0⟩, ⟨1⟩], true⟩]
      [(1, ⟨1, [⟨"t", [⟨0, -2⟩]⟩]⟩), (2, ⟨1, [⟨"t", [⟨1, -2⟩]⟩]⟩)] exOracleOk
      (by decide) rfl).2
  have hconc : Cluster.fetchTopicsOffset exCluster exOracleOk [⟨"t", [⟨0⟩, ⟨1⟩], true⟩] =
      .ok [⟨"t", [⟨0, some "42"⟩, ⟨1, some "42"⟩]⟩] := rfl
  exact hout.trans (hout.symm.trans hconc)

/-! ## Claim C10: errorCode is never inspected -/

theorem objGet_scrubObj (t : String) (o : List (String × List ResponsePartition)) :
    objGet t (scrubObj o) = (objGet t o).map (fun l => l.map scrubPartition) := by
  induction o with
  | nil => simp [scrubObj, objGet]
  | cons kv rest ih =>
    obtain ⟨k₀, v₀⟩ := kv
    simp only [scrubObj, List.map_cons] at ih ⊢
    by_cases hk : k₀ = t <;> simp [objGet, hk, ih]

theorem scrubObj_objSetStr (k : String) (v : List ResponsePartition)
    (o : List (String × List ResponsePartition)) :
    scrubObj (objSetStr k v o) = objSetStr k (v.map scrubPartition) (scrubObj o) := by
  induction o with
  | nil => simp [scrubObj, objSetStr]
  | cons kv rest ih =>
    obtain ⟨k₀, v₀⟩ := kv
    simp only [scrubObj] at ih ⊢
    by_cases hk : k₀ = k <;> simp [objSetStr, hk, ih]

theorem scrubObj_mergeTopics (acc : List (String × List ResponsePartition))
    (r : ResponseTopic) :
    scrubObj (mergeTopics acc r) = mergeTopics (scrubObj acc) (scrubTopic r) := by
  rw [mergeTopics, scrubObj_objSetStr]
  show objSetStr r.topic _ _ = objSetStr (scrubTopic r).topic _ _
  rw [show (scrubTopic r).topic = r.topic from rfl,
    show (scrubTopic r).partitions = r.partitions.map scrubPartition from rfl,
    objGet_scrubObj]
  cases objGet r.topic acc <;> simp

theorem scrubObj_foldl_mergeTopics (rs : List ResponseTopic)
    (acc : List (String × List ResponsePartition)) :
    scrubObj (rs.foldl mergeTopics acc) = (rs.map scrubTopic).foldl mergeTopics (scrubObj acc) := by
  induction rs generalizing acc with
  | nil => rfl
  | cons r rest ih =>
    rw [List.foldl_cons, List.map_cons, List.foldl_cons, ih, scrubObj_mergeTopics]

theorem map_proj_scrubObj (o : List (String × List ResponsePartition)) :
    (scrubObj o).map (fun kv =>
        ({ topic := kv.1, partitions := kv.2.map (fun p => ⟨p.partition, p.offset⟩) }
          : TopicOffsetResult)) =
      o.map (fun kv =>
        { topic := kv.1, partitions := kv.2.map (fun p => ⟨p.partition, p.offset⟩) }) := by
  rw [scrubObj, List.map_map]
  refine List.map_congr_left (fun kv _ => ?_)
  simp [List.map_map, scrubPartition]

/-- The `{partition, offset}` projection of the merged responses is invariant
under scrubbing the response error codes. -/
theorem merged_projection_scrub (rs₁ rs₂ : List ResponseTopic)
    (h : scrubResponses rs₁ = scrubResponses rs₂) :
    regroupOffsets rs₁ = regroupOffsets rs₂ := by
  have key : ∀ rs : List ResponseTopic,
      regroupOffsets rs = regroupOffsets (scrubResponses rs) := by
    intro rs
    rw [regroupOffsets, ← map_proj_scrubObj, scrubObj_foldl_mergeTopics]
    rfl
  rw [key rs₁, key rs₂, h]

/-- Claim C10: `fetchTopicsOffset` never inspects the per-partition
`errorCode` of the `listOffsets` responses: two broker oracles whose
responses agree up to error codes produce identical results, so a partition
with a non-zero `errorCode` still contributes its (possibly absent) offset
instead of raising. -/
theorem claim_C10 (cluster : ClusterState) (topics : List TopicOffsetQuery)
    (oracle₁ oracle₂ : Int → ListOffsetsRequest → List ResponseTopic)
    (h : ∀ n req, scrubResponses (oracle₁ n req) = scrubResponses (oracle₂ n req)) :
    Cluster.fetchTopicsOffset cluster oracle₁ topics =
      Cluster.fetchTopicsOffset cluster oracle₂ topics := by
  cases hreq : Cluster.buildOffsetRequests cluster topics with
  | error e =>
    simp [Cluster.fetchTopicsOffset, hreq, Cluster.except_bind_error]
  | ok requests =>
    rw [fetchTopicsOffset_eq cluster topics oracle₁ requests hreq,
      fetchTopicsOffset_eq cluster topics oracle₂ requests hreq, Except.ok.injEq]
    apply merged_projection_scrub
    rw [scrubResponses, scrubResponses, List.map_flatten, List.map_flatten,
      List.map_map, List.map_map]
    refine congrArg List.flatten (List.map_congr_left (fun kv _ => ?_))
    exact h kv.1 kv.2

/-- Witness for C10: the oracle answering `errorCode = 7` everywhere and the
oracle answering `errorCode = 0` everywhere agree up to error codes, so the
S2 fetch returns the same offsets for both. -/
theorem claim_C10_witness :
    Cluster.fetchTopicsOffset exCluster exOracleErr [⟨"t", [⟨0⟩, ⟨1⟩], true⟩] =
      Cluster.fetchTopicsOffset exCluster exOracleOk [⟨"t", [⟨0⟩, ⟨1⟩], true⟩] :=
  claim_C10 exCluster [⟨"t", [⟨0⟩, ⟨1⟩], true⟩] exOracleErr exOracleOk
    (fun n req => by
      simp [exOracleErr, exOracleOk, scrubResponses, scrubTopic, scrubPartition,
        List.map_map])

/-- Witness for C8: the S6 scenario (no snapshot ⇒ `MetadataNotLoaded`) and
the loaded-snapshot case resolving controller 1. -/
theorem claim_C8_witness :
    Cluster.findControllerBroker exFindBroker ⟨[], 0, none⟩ =
      Except.error ClusterError.metadataNotLoaded ∧
    Cluster.findControllerBroker exFindBroker exCluster =
      (exFindBroker 1).bind (fun broker =>
        match broker with
        | none => Except.error (ClusterError.brokerNotFound 1)
        | some b => Except.ok b) :=
  ⟨((claim_C8 exFindBroker exFindBroker ⟨[], 0, none⟩).1 rfl).1,
   (claim_C8 exFindBroker exFindBroker exCluster).2 1 rfl⟩

end KafkaJs
